import Mathlib

/-!
Verification of the Configuration Conversion Pipeline of mcp-config-converter
against its natural-language specification.

The development shallowly embeds the Python source:

* `determine_config_format` and `parse_config_string`
  (src/mcp_config_converter/utils.py) — the format-detection cascade, with the
  external parser libraries (orjson, toml, toon_format, yaml) abstracted as
  oracle functions returning `Option` (a `none` models a raised-and-caught
  decode error).
* `merge_dicts` (src/mcp_config_converter/utils.py) — the recursive dict merge,
  both as a pure function on association lists and as a heap-based state
  transformer (to reason about mutation/aliasing).
* the output-reconciliation step of `convert`
  (src/mcp_config_converter/cli/convert.py, lines 111-128) together with
  `validate_output_action` and the `OutputAction` value set
  (src/mcp_config_converter/cli/utils.py, src/mcp_config_converter/types.py).
* `LiteLLMClient.generate`'s retry loop and `LiteLLMClient._resolve_model`
  (src/mcp_config_converter/llm/client.py), with the underlying
  `litellm.completion` call abstracted as an oracle indexed by attempt number.
* `ProviderRegistry.select_best_provider` (src/mcp_config_converter/llm/__init__.py).
-/

namespace MCPConv

/-- The `ConfigFormat` enum of src/mcp_config_converter/types.py. -/
inductive ConfigFormat where
  | JSON
  | YAML
  | TOML
  | TOON
  | TEXT
deriving DecidableEq

/-- Python values as produced by the configuration parsers: dicts
(association lists preserving insertion order), lists, and scalars. -/
inductive PVal where
  | dict : List (String × PVal) → PVal
  | arr : List PVal → PVal
  | str : String → PVal
  | int : Int → PVal
  | boolean : Bool → PVal
  | null : PVal

/-- `isinstance(v, (dict, list))` — the "container" check used by the
detection cascade. -/
def PVal.isContainer : PVal → Bool
  | .dict _ => true
  | .arr _ => true
  | _ => false

/-- Python `not cfg or cfg.isspace()`: true iff the string is empty or
consists only of whitespace characters. -/
def pyIsBlank (s : String) : Bool :=
  s.toList.all Char.isWhitespace

/-- The external parser libraries used by utils.py, abstracted as oracles.
A result of `none` models a parse attempt that raised the decode error the
source catches (`orjson.JSONDecodeError`, `toml.TomlDecodeError`,
`toon_format.ToonDecodeError`, `yaml.YAMLError`).  `toml.loads` returns a
dict whenever it succeeds, so its oracle yields dict entries directly. -/
structure Parsers where
  jsonLoads : String → Option PVal
  tomlLoads : String → Option (List (String × PVal))
  toonDecode : String → Option PVal
  yamlLoad : String → Option PVal

/-- Whether the JSON attempt of the cascade accepts: the parse succeeded and
the parsed value is a mapping or sequence. -/
def jsonAccepts (P : Parsers) (cfg : String) : Bool :=
  match P.jsonLoads cfg with
  | some v => v.isContainer
  | none => false

/-- Whether the TOML attempt accepts: success is enough (the parsed value is
always a dict). -/
def tomlAccepts (P : Parsers) (cfg : String) : Bool :=
  (P.tomlLoads cfg).isSome

/-- Whether the TOON attempt accepts: parse succeeded with a container. -/
def toonAccepts (P : Parsers) (cfg : String) : Bool :=
  match P.toonDecode cfg with
  | some v => v.isContainer
  | none => false

/-- Whether the YAML attempt accepts: parse succeeded with a container. -/
def yamlAccepts (P : Parsers) (cfg : String) : Bool :=
  match P.yamlLoad cfg with
  | some v => v.isContainer
  | none => false

/-- `determine_config_format` (src/mcp_config_converter/utils.py, lines 22-63):
empty/whitespace input is TEXT; otherwise the attempts run in the order
JSON, TOML, TOON, YAML, the first accepting attempt naming the format, and
TEXT when none accept. -/
def determine_config_format (P : Parsers) (cfg : String) : ConfigFormat :=
  if pyIsBlank cfg then .TEXT
  else if jsonAccepts P cfg then .JSON
  else if tomlAccepts P cfg then .TOML
  else if toonAccepts P cfg then .TOON
  else if yamlAccepts P cfg then .YAML
  else .TEXT

/-- `parse_config_string` (src/mcp_config_converter/utils.py, lines 66-99):
tries JSON, then TOML, then YAML — there is no TOON attempt in this
function — returning the parsed container of the first attempt that yields
a dict or list, and `none` otherwise. -/
def parse_config_string (P : Parsers) (content : String) : Option PVal :=
  if pyIsBlank content then none
  else if jsonAccepts P content then P.jsonLoads content
  else
    match P.tomlLoads content with
    | some d => some (.dict d)
    | none =>
      if yamlAccepts P content then P.yamlLoad content
      else none

/-- Look a key up in a Python dict modelled as an insertion-ordered
association list with unique keys (`d[k]` / `k in d`). -/
def lookupD : List (String × PVal) → String → Option PVal
  | [], _ => none
  | p :: ps, k => if p.1 = k then some p.2 else lookupD ps k

/-- `d[k] = v` on a Python dict: an existing key keeps its position and gets
the new value; a fresh key is appended (insertion order). -/
def dictSet : List (String × PVal) → String → PVal → List (String × PVal)
  | [], k, v => [(k, v)]
  | p :: ps, k, v => if p.1 = k then (k, v) :: ps else p :: dictSet ps k v

/-- `merge_dicts` (src/mcp_config_converter/utils.py, lines 129-145) as a pure
function on dict values: `result = base.copy()`, then each override entry is
assigned into the result, recursing when both sides hold a dict. -/
def merge_dicts : List (String × PVal) → List (String × PVal) → List (String × PVal)
  | base, [] => base
  | base, (k, v) :: rest =>
    match lookupD base k, v with
    | some (.dict bd), .dict vd =>
      merge_dicts (dictSet base k (.dict (merge_dicts bd vd))) rest
    | _, _ => merge_dicts (dictSet base k v) rest
termination_by _ override => (sizeOf override, 0)
decreasing_by
  all_goals simp_wf
  all_goals left
  all_goals omega

/-- Python `existing_data.update(new_data)` on two dicts: every override
entry is assigned into the base at depth 1 (whole-value replacement). -/
def pyDictUpdate (base override : List (String × PVal)) : List (String × PVal) :=
  override.foldl (fun acc kv => dictSet acc kv.1 kv.2) base

/-- Python `s.lower()` (the action names involved are ASCII). -/
def pyLower (s : String) : String := String.mk (s.toList.map Char.toLower)

/-- The `OutputAction` values of src/mcp_config_converter/types.py:
overwrite, skip, merge. -/
def VALID_OUTPUT_ACTIONS : List String := ["overwrite", "skip", "merge"]

/-- `validate_output_action` (src/mcp_config_converter/cli/utils.py,
lines 187-188): the lower-cased action must be one of the valid values. -/
def validate_output_action (action : String) : Bool :=
  VALID_OUTPUT_ACTIONS.contains (pyLower action)

/-- The `json` module calls made by `convert`'s merge branch, abstracted:
`loads` returning `none` models a raised `JSONDecodeError`. -/
structure JsonCodec where
  loads : String → Option PVal
  dumps : PVal → String

/-- Outcome of the output-reconciliation step of `convert`. -/
inductive ConvertOutcome where
  | skipped : String → ConvertOutcome
  | wrote : String → ConvertOutcome
  | errored : ConvertOutcome

/-- The message printed by `convert`'s skip branch. -/
def skipMessage (outputPath : String) : String :=
  "Skipping conversion: output file " ++ outputPath ++ " already exists (action: skip)"

/-- The output step of `convert` (src/mcp_config_converter/cli/convert.py,
lines 111-128), run after `ConfigTransformer.transform` produced `result`.
When the output file exists, `output_action.lower()` selects: "skip" returns
early without writing; "merge" loads both the existing file and the result
as JSON, applies `existing_data.update(new_data)` and writes the merged dict
as JSON; anything else (the validated remaining action is "overwrite")
writes `result`.  When the file does not exist, `result` is written.  A
failing JSON load, or an update against a non-dict, raises and is modelled
as `errored` (the surrounding handler exits with code 1). -/
def convertOutputStep (J : JsonCodec) (outputPath : String) (outputExists : Bool)
    (existingText result : String) (action : String) : ConvertOutcome :=
  if outputExists then
    match pyLower action with
    | "skip" => .skipped (skipMessage outputPath)
    | "merge" =>
      match J.loads existingText, J.loads result with
      | some (.dict e), some (.dict n) => .wrote (J.dumps (.dict (pyDictUpdate e n)))
      | _, _ => .errored
    | _ => .wrote result
  else .wrote result

/-- Content of the destination file after the output step: only a `wrote`
outcome changes it. -/
def fileAfter (existingText : String) : ConvertOutcome → String
  | .wrote content => content
  | _ => existingText

/-- Result of one underlying `litellm.completion` call.  `retryable` covers
the exceptions the source catches and retries (`RateLimitError`,
`ServiceUnavailableError`, `APIConnectionError`); `fatal` is any other
exception. -/
inductive CallResult where
  | success : String → CallResult
  | retryable : String → CallResult
  | fatal : String → CallResult

/-- The error raised by `LiteLLMClient.generate`: a fatal failure is wrapped
immediately; an exhausted retry budget raises a single wrapped error
carrying the number of retries and the last underlying cause. -/
inductive GenError where
  | wrapped : String → GenError
  | exhausted : Nat → Option String → GenError
deriving DecidableEq

/-- Trace of one `generate` run: number of underlying calls, the sleep
delays in order, and the final result. -/
structure GenTrace where
  calls : Nat
  sleeps : List ℚ
  result : Except GenError String

/-- The retry loop of `LiteLLMClient.generate`
(src/mcp_config_converter/llm/client.py, lines 203-221), driven by an oracle
giving each attempt's outcome.  `fuel` counts the remaining loop iterations
(initially `max_retries`), `attempt` the current index: success returns the
text; a retryable failure sleeps `retry_delay * 2 ** attempt` and continues
unless this was the last iteration; a fatal failure raises immediately;
after the loop the last retryable cause is wrapped and raised. -/
def generateAux (retryDelay : ℚ) (maxRetries : Nat) (oracle : Nat → CallResult) :
    Nat → Nat → Option String → GenTrace
  | 0, _, last => ⟨0, [], .error (.exhausted maxRetries last)⟩
  | fuel + 1, attempt, _ =>
    match oracle attempt with
    | .success t => ⟨1, [], .ok t⟩
    | .fatal e => ⟨1, [], .error (.wrapped e)⟩
    | .retryable e =>
      if fuel = 0 then ⟨1, [], .error (.exhausted maxRetries (some e))⟩
      else
        let d := retryDelay * 2 ^ attempt
        let rest := generateAux retryDelay maxRetries oracle fuel (attempt + 1) (some e)
        ⟨rest.calls + 1, d :: rest.sleeps, rest.result⟩

/-- `LiteLLMClient.generate`'s retry behaviour: run the loop for
`max_retries` iterations starting at attempt 0 with no recorded cause. -/
def generate (maxRetries : Nat) (retryDelay : ℚ) (oracle : Nat → CallResult) : GenTrace :=
  generateAux retryDelay maxRetries oracle maxRetries 0 none

/-- Errors raised by `LiteLLMClient._resolve_model` (both are `ValueError`s
in the source, distinguished by their message). -/
inductive ResolveError where
  | noModelsAvailable : ResolveError
  | indexOutOfBounds : Int → Nat → ResolveError
deriving DecidableEq

/-- Python sequence indexing `l[i]`: a negative index counts from the end;
`none` models the `IndexError` raised when the (normalised) index is out of
range. -/
def pyIndex (l : List String) (i : Int) : Option String :=
  let j := if i < 0 then i + l.length else i
  if 0 ≤ j ∧ j < l.length then l.get? j.toNat else none

/-- `LiteLLMClient._resolve_model`
(src/mcp_config_converter/llm/client.py, lines 271-306): a string model is
returned unchanged; an integer model indexes into the available-models list
(`get_available_models()`, passed here as `available` — a provider whose
list is unavailable yields `[]` because that method catches every exception
and returns an empty list).  An empty list is a fatal "no models available"
error; an out-of-range index is a fatal out-of-bounds error. -/
def resolve_model (model : String ⊕ Int) (available : List String) :
    Except ResolveError String :=
  match model with
  | .inl s => .ok s
  | .inr i =>
    if available.isEmpty then .error .noModelsAvailable
    else
      match pyIndex available i with
      | some m => .ok m
      | none => .error (.indexOutOfBounds i available.length)

/-- A registered provider as `select_best_provider` sees it: cost weight,
whether the constructor call succeeds, and the result of
`validate_config()`. -/
structure PInfo where
  cost : Int
  instOk : Bool
  validates : Bool
deriving DecidableEq

/-- The registry: providers in registration order (Python dict insertion
order of `_PROVIDER_REGISTRY`). -/
abbrev Registry := List (String × PInfo)

/-- Stable insertion used to model Python's stable `sorted(..., key=cost)`:
an element is placed after every already-placed element of smaller or equal
cost, so equal-cost providers keep registration order. -/
def insertByCost (x : String × PInfo) : Registry → Registry
  | [] => [x]
  | y :: ys => if y.2.cost ≤ x.2.cost then y :: insertByCost x ys else x :: y :: ys

/-- `sorted(_PROVIDER_REGISTRY.items(), key=cost)`: a stable ascending sort
by cost weight. -/
def sortByCost (reg : Registry) : Registry :=
  reg.foldl (fun acc x => insertByCost x acc) []

/-- The exact error message raised when no provider is suitable
(src/mcp_config_converter/llm/__init__.py, line 112). -/
def noProviderMessage : String :=
  "No suitable LLM provider found and properly configured"

/-- The candidate loop of `select_best_provider`: instantiate each provider
in order (an exception during construction is caught and the candidate
skipped), return the first whose `validate_config()` is true. -/
def selectLoop : Registry → Except String (String × PInfo)
  | [] => .error noProviderMessage
  | p :: rest => if p.2.instOk && p.2.validates then .ok p else selectLoop rest

/-- `ProviderRegistry.select_best_provider`
(src/mcp_config_converter/llm/__init__.py, lines 86-112): sort the registry
ascending by cost and return the first candidate that instantiates and
validates, else raise `ValueError(noProviderMessage)`. -/
def select_best_provider (reg : Registry) : Except String (String × PInfo) :=
  selectLoop (sortByCost reg)

/-- Heap values for the mutation analysis of `merge_dicts`: dict objects
live on a heap and are referred to by address, everything else is an
immutable inline value (mirroring which Python values `merge_dicts` can
mutate). -/
inductive HVal where
  | ref : Nat → HVal
  | str : String → HVal
  | int : Int → HVal
  | boolean : Bool → HVal
  | nil : HVal
deriving DecidableEq

/-- A dict object: insertion-ordered entries. -/
abbrev HDict := List (String × HVal)

/-- The heap: dict objects indexed by address (their list position). -/
abbrev Store := List HDict

/-- `d[k] = v` on a dict object (update in place or append). -/
def dictSetH : HDict → String → HVal → HDict
  | [], k, v => [(k, v)]
  | p :: ps, k, v => if p.1 = k then (k, v) :: ps else p :: dictSetH ps k v

/-- `d[k]` / `k in d` lookup on a dict object. -/
def lookupH : HDict → String → Option HVal
  | [], _ => none
  | p :: ps, k => if p.1 = k then some p.2 else lookupH ps k

/-- Write `result[key] = value` to the dict object at address `a`. -/
def storeWrite (store : Store) (a : Nat) (k : String) (v : HVal) : Store :=
  match store.get? a with
  | some d => store.set a (dictSetH d k v)
  | none => store

mutual
/-- `merge_dicts(base, override)` (src/mcp_config_converter/utils.py,
lines 129-145) as a heap transformer: `result = base.copy()` allocates a
fresh dict object holding the same entries as `base` (a shallow copy —
nested references are shared), then the override entries are folded in.
`fuel` bounds the recursion depth (Python would raise `RecursionError` on a
cyclic heap; exhaustion yields `none`).  Returns the extended heap and the
address of the freshly allocated result. -/
def mergeDictsH (fuel : Nat) (store : Store) (baseA overA : Nat) : Option (Store × Nat) :=
  match fuel with
  | 0 => none
  | fuel' + 1 =>
    match store.get? baseA, store.get? overA with
    | some baseD, some overD =>
      let resA := store.length
      match mergeUpd fuel' (store ++ [baseD]) resA overD with
      | some st => some (st, resA)
      | none => none
    | _, _ => none
termination_by (fuel, 0)

/-- The `for key, value in override.items()` loop of `merge_dicts`: when the
result's current value at the key and the override value are both dict
references, recurse and store a reference to the freshly merged dict;
otherwise assign the override value (whole-value replacement). -/
def mergeUpd (fuel : Nat) (store : Store) (resA : Nat) : HDict → Option Store
  | [] => some store
  | (k, v) :: rest =>
    match (store.get? resA).bind (fun d => lookupH d k), v with
    | some (.ref a), .ref b =>
      match mergeDictsH fuel store a b with
      | some (st, mA) => mergeUpd fuel (storeWrite st resA k (.ref mA)) resA rest
      | none => none
    | _, _ => mergeUpd fuel (storeWrite store resA k v) resA rest
termination_by entries => (fuel, entries.length + 1)
end

/-- `key in d` on a Python dict. -/
def hasKey : List (String × PVal) → String → Bool
  | [], _ => false
  | p :: ps, k => p.1 = k || hasKey ps k

/-! Concrete fixtures used by the claim theorems and witnesses. -/

/-- Oracle behaviour on a TOML document that a lenient YAML reader also
parses (both succeed; the detection order decides). -/
def tomlYamlParsers : Parsers where
  jsonLoads := fun _ => none
  tomlLoads := fun _ => some [("ip", .str "10.0.0.1")]
  toonDecode := fun _ => none
  yamlLoad := fun _ => some (.dict [("ip", .str "10.0.0.1")])

/-- Oracle behaviour on a bare JSON scalar (orjson succeeds with a string,
nothing else accepts): the real parsers behave this way on the input
consisting of a double-quoted plain string. -/
def scalarJsonParsers : Parsers where
  jsonLoads := fun _ => some (.str "a plain string")
  tomlLoads := fun _ => none
  toonDecode := fun _ => none
  yamlLoad := fun _ => some (.str "a plain string")

/-- The input for the TOON/YAML divergence: a TOON root-level array
document.  On this input orjson and toml raise, `toon_format.decode`
returns the list of the two integers, and PyYAML raises (the flow sequence
used as a mapping key is unhashable, a `ConstructorError`, which is a
`YAMLError` and so is caught). -/
def toonArrayDoc : String := "[2]: 1,2"

/-- Oracle behaviour of the real parser libraries on `toonArrayDoc`. -/
def toonOnlyParsers : Parsers where
  jsonLoads := fun _ => none
  tomlLoads := fun _ => none
  toonDecode := fun s => if s = toonArrayDoc then some (.arr [.int 1, .int 2]) else none
  yamlLoad := fun _ => none

/-- The existing container of the spec's merge example:
the dict with key a mapped to a sub-dict holding x=1 and y=2, and key b=5. -/
def exBase : List (String × PVal) :=
  [("a", .dict [("x", .int 1), ("y", .int 2)]), ("b", .int 5)]

/-- The new container of the spec's merge example:
key a mapped to a sub-dict holding y=9 and z=3, and key c=7. -/
def exNew : List (String × PVal) :=
  [("a", .dict [("y", .int 9), ("z", .int 3)]), ("c", .int 7)]

/-- The recursive-merge result of the spec example: nested x survives. -/
def exMergedRecursive : List (String × PVal) :=
  [("a", .dict [("x", .int 1), ("y", .int 9), ("z", .int 3)]), ("b", .int 5), ("c", .int 7)]

/-- The shallow-merge result of the spec example: the whole sub-dict at a is
replaced, nested x is dropped. -/
def exMergedShallow : List (String × PVal) :=
  [("a", .dict [("y", .int 9), ("z", .int 3)]), ("b", .int 5), ("c", .int 7)]

/-- The attempt oracle of the spec's retry scenario: two rate-limit failures
followed by success. -/
def rateLimitTwiceOracle : Nat → CallResult
  | 0 => .retryable "rate limited"
  | 1 => .retryable "rate limited again"
  | _ => .success "converted"

/-- An attempt oracle that fails fatally at once (e.g. a malformed-request
or authorization error). -/
def fatalOracle : Nat → CallResult := fun _ => .fatal "bad request"

/-- An attempt oracle that is rate-limited on every call. -/
def alwaysRateLimitedOracle : Nat → CallResult := fun _ => .retryable "rate limited"

/-- The available-models fixture of the spec's index-resolution example. -/
def exModels : List String := ["m0", "m1", "m2"]

/-- The registry of the spec's auto-selection example: costs A=90, B=20,
C=55; only B and C have credentials (A fails validation). -/
def exRegistry : Registry :=
  [("A", ⟨90, true, false⟩), ("B", ⟨20, true, true⟩), ("C", ⟨55, true, true⟩)]

/-- Two equal-cost validating providers, X registered before Y: exercises
the registration-order tie break. -/
def tieRegistry : Registry :=
  [("X", ⟨7, true, true⟩), ("Y", ⟨7, true, true⟩)]

/-- A registry whose single candidate A fails validation. -/
def failRegistryA : Registry := [("A", ⟨90, true, false⟩)]

/-- A registry whose candidates B (failed validation) and C (constructor
raises) both fail, for different reasons. -/
def failRegistryBC : Registry := [("B", ⟨20, true, false⟩), ("C", ⟨55, false, true⟩)]

/-- A JSON codec oracle mapping the two texts of the merge example to their
containers (any other text fails to parse). -/
def exCodec : JsonCodec where
  loads := fun s =>
    if s = "existing.json" then some (.dict exBase)
    else if s = "new.json" then some (.dict exNew)
    else none
  dumps := fun _ => "dumped"

/-- Initial heap of the mutation witness: address 0 holds the base dict
(whose key a refers to the dict at address 1), address 2 holds the override
dict (whose key a refers to the dict at address 3). -/
def mutStore0 : Store :=
  [[("a", .ref 1), ("b", .int 5)],
   [("x", .int 1), ("y", .int 2)],
   [("a", .ref 3), ("c", .int 7)],
   [("y", .int 9), ("z", .int 3)]]

/-- Final heap of the mutation witness: the four original objects are
unchanged; address 4 holds the merged top-level result and address 5 the
merged sub-dict. -/
def mutStoreFinal : Store :=
  [[("a", .ref 1), ("b", .int 5)],
   [("x", .int 1), ("y", .int 2)],
   [("a", .ref 3), ("c", .int 7)],
   [("y", .int 9), ("z", .int 3)],
   [("a", .ref 5), ("b", .int 5), ("c", .int 7)],
   [("x", .int 1), ("y", .int 9), ("z", .int 3)]]

/-! Theorems. -/

/-- C1: format detection returns TEXT on empty/whitespace-only input, tries
JSON, TOML, TOON, YAML in this strict-to-lenient order accepting only
mapping/sequence results (TOML needs only a successful parse, which always
yields a mapping), returns the first accepting attempt's format and TEXT
when none accept; a TOML document that also parses under lenient YAML is
classified TOML, and a bare JSON scalar is never classified JSON.  The
embedded function is total, so detection never raises. -/
theorem C1_format_detection_cascade (P : Parsers) (cfg : String) :
    (pyIsBlank cfg = true → determine_config_format P cfg = .TEXT)
    ∧ (pyIsBlank cfg = false → jsonAccepts P cfg = true →
        determine_config_format P cfg = .JSON)
    ∧ (pyIsBlank cfg = false → jsonAccepts P cfg = false → tomlAccepts P cfg = true →
        determine_config_format P cfg = .TOML)
    ∧ (pyIsBlank cfg = false → jsonAccepts P cfg = false → tomlAccepts P cfg = false →
        toonAccepts P cfg = true → determine_config_format P cfg = .TOON)
    ∧ (pyIsBlank cfg = false → jsonAccepts P cfg = false → tomlAccepts P cfg = false →
        toonAccepts P cfg = false → yamlAccepts P cfg = true →
        determine_config_format P cfg = .YAML)
    ∧ (jsonAccepts P cfg = false → tomlAccepts P cfg = false → toonAccepts P cfg = false →
        yamlAccepts P cfg = false → determine_config_format P cfg = .TEXT)
    ∧ (∀ s, P.jsonLoads cfg = some (.str s) → determine_config_format P cfg ≠ .JSON) := by
  refine ⟨?_, ?_, ?_, ?_, ?_, ?_, ?_⟩
  · intro h
    simp [determine_config_format, h]
  · intro h1 h2
    simp [determine_config_format, h1, h2]
  · intro h1 h2 h3
    simp [determine_config_format, h1, h2, h3]
  · intro h1 h2 h3 h4
    simp [determine_config_format, h1, h2, h3, h4]
  · intro h1 h2 h3 h4 h5
    simp [determine_config_format, h1, h2, h3, h4, h5]
  · intro h2 h3 h4 h5
    by_cases h1 : pyIsBlank cfg <;>
      simp [determine_config_format, h1, h2, h3, h4, h5]
  · intro s hs
    have hj : jsonAccepts P cfg = false := by
      simp [jsonAccepts, hs, PVal.isContainer]
    unfold determine_config_format
    split_ifs <;> simp_all

/-- C1 witness: a document whose TOML and YAML attempts both accept is
classified TOML. -/
theorem C1_format_detection_cascade_witness :
    determine_config_format tomlYamlParsers "ip = 1" = .TOML :=
  (C1_format_detection_cascade tomlYamlParsers "ip = 1").2.2.1 rfl rfl rfl

/-- C6 counterexample: on the TOON root-array document (real behaviour:
orjson, toml and PyYAML all raise, `toon_format.decode` yields a list)
detection classifies TOON, yet `parse_config_string` — whose cascade has no
TOON attempt — returns null rather than the parsed container. -/
theorem C6_counterexample :
    determine_config_format toonOnlyParsers toonArrayDoc = .TOON
    ∧ parse_config_string toonOnlyParsers toonArrayDoc = none :=
  ⟨rfl, rfl⟩

/-- C6 amended: `parse_config_string` runs the JSON, TOML, YAML attempts
only.  It returns the container of the same accepting parser for every
input classified JSON or TOML, the YAML container for every input
classified YAML, and null for every input classified TEXT; for an input
classified TOON it skips the TOON parser and returns the YAML container if
the YAML attempt accepts, else null. -/
theorem C6_parse_config_refines_detection (P : Parsers) (s : String) :
    (determine_config_format P s = .JSON →
        parse_config_string P s = P.jsonLoads s ∧ jsonAccepts P s = true)
    ∧ (determine_config_format P s = .TOML →
        parse_config_string P s = (P.tomlLoads s).map PVal.dict ∧ tomlAccepts P s = true)
    ∧ (determine_config_format P s = .YAML →
        parse_config_string P s = P.yamlLoad s ∧ yamlAccepts P s = true)
    ∧ (determine_config_format P s = .TEXT → parse_config_string P s = none)
    ∧ (determine_config_format P s = .TOON →
        parse_config_string P s = (if yamlAccepts P s = true then P.yamlLoad s else none)) := by
  by_cases hb : pyIsBlank s <;>
    by_cases hj : jsonAccepts P s <;>
      cases ht : P.tomlLoads s <;>
        by_cases hn : toonAccepts P s <;>
          by_cases hy : yamlAccepts P s <;>
            simp_all [determine_config_format, parse_config_string, tomlAccepts]

/-- C6 amended witness: with the TOML/YAML oracle, a TOML-classified input
parses to the TOML container. -/
theorem C6_parse_config_refines_detection_witness :
    parse_config_string tomlYamlParsers "ip = 1"
      = (tomlYamlParsers.tomlLoads "ip = 1").map PVal.dict
    ∧ tomlAccepts tomlYamlParsers "ip = 1" = true :=
  (C6_parse_config_refines_detection tomlYamlParsers "ip = 1").2.1 rfl

/-- C9: with an existing destination file and the skip action the output
step returns before any write — the destination's content is unchanged —
and the skip message reporting the discarded result is printed. -/
theorem C9_skip_leaves_file_unchanged (J : JsonCodec) (path existingText result : String) :
    convertOutputStep J path true existingText result "skip" = .skipped (skipMessage path)
    ∧ fileAfter existingText (convertOutputStep J path true existingText result "skip")
        = existingText := by
  constructor <;> rfl

/-- C9 witness: the skip outcome at concrete contents. -/
theorem C9_skip_leaves_file_unchanged_witness :
    convertOutputStep exCodec "out.json" true "old content" "new content" "skip"
      = .skipped (skipMessage "out.json")
    ∧ fileAfter "old content"
        (convertOutputStep exCodec "out.json" true "old content" "new content" "skip")
      = "old content" :=
  C9_skip_leaves_file_unchanged exCodec "out.json" "old content" "new content"

/-- C2: retryable failures (rate-limit, service-unavailable, connection
errors) sleep `retry_delay * 2 ** attempt` and retry within a budget of
`max_retries` underlying calls, after which a single wrapped error carrying
the last cause is raised; a fatal failure is wrapped and raised immediately
with no sleep.  With maxRetries = 3, initialDelay = 1 and two rate-limit
failures before success: exactly 3 calls, sleeps of 1 then 2, success. -/
theorem C2_retry_policy :
    ((generate 3 1 rateLimitTwiceOracle).calls = 3
      ∧ (generate 3 1 rateLimitTwiceOracle).sleeps = [1, 2]
      ∧ (generate 3 1 rateLimitTwiceOracle).result = .ok "converted")
    ∧ (∀ (mr : Nat) (d : ℚ) (oracle : Nat → CallResult) (e : String),
        1 ≤ mr → oracle 0 = .fatal e →
        generate mr d oracle = ⟨1, [], .error (.wrapped e)⟩)
    ∧ (∀ (d : ℚ) (oracle : Nat → CallResult) (e0 e1 e2 : String),
        oracle 0 = .retryable e0 → oracle 1 = .retryable e1 → oracle 2 = .retryable e2 →
        generate 3 d oracle = ⟨3, [d, d * 2], .error (.exhausted 3 (some e2))⟩) := by
  refine ⟨⟨?_, ?_, ?_⟩, ?_, ?_⟩
  · rfl
  · show [(1 : ℚ) * 2 ^ 0, 1 * 2 ^ 1] = [1, 2]
    norm_num
  · rfl
  · intro mr d oracle e hmr h0
    match mr, hmr with
    | mr + 1, _ => simp [generate, generateAux, h0]
  · intro d oracle e0 e1 e2 h0 h1 h2
    simp [generate, generateAux, h0, h1, h2]

/-- C2 witness: a fatal failure on the first call is raised at once,
wrapped, after exactly one underlying call and no sleep. -/
theorem C2_retry_policy_witness :
    generate 3 1 fatalOracle = ⟨1, [], .error (.wrapped "bad request")⟩ :=
  C2_retry_policy.2.1 3 1 fatalOracle "bad request" (by decide) rfl

/-- C5: model resolution returns a string model unchanged; an integer model
indexes the available-models list with Python semantics (negative indices
count from the end: index -1 of the three models resolves to m2; index 5 is
a fatal out-of-range error); an integer index against an empty or
unavailable model list is a fatal error; in general every in-range index
resolves and every out-of-range index fails. -/
theorem C5_model_index_resolution :
    (∀ (s : String) (available : List String), resolve_model (.inl s) available = .ok s)
    ∧ resolve_model (.inr (-1)) exModels = .ok "m2"
    ∧ resolve_model (.inr 5) exModels = .error (.indexOutOfBounds 5 3)
    ∧ (∀ i : Int, resolve_model (.inr i) [] = .error .noModelsAvailable)
    ∧ (∀ (l : List String) (i : Int), l ≠ [] →
        -(l.length : Int) ≤ i → i < l.length →
        ∃ m, resolve_model (.inr i) l = .ok m)
    ∧ (∀ (l : List String) (i : Int), l ≠ [] →
        (i < -(l.length : Int) ∨ (l.length : Int) ≤ i) →
        resolve_model (.inr i) l = .error (.indexOutOfBounds i l.length)) := by
  refine ⟨fun s available => rfl, rfl, rfl, fun i => rfl, ?_, ?_⟩
  · intro l i hne hlo hhi
    have hne' : l.isEmpty = false := by
      cases l
      · exact absurd rfl hne
      · rfl
    by_cases hneg : i < 0
    · have h0 : (0 : Int) ≤ i + l.length := by omega
      have h1 : i + (l.length : Int) < l.length := by omega
      have h2 : (i + (l.length : Int)).toNat < l.length := by omega
      refine ⟨l.get ⟨(i + (l.length : Int)).toNat, h2⟩, ?_⟩
      simp [resolve_model, pyIndex, hne', hneg, h0, h1, List.get?_eq_get h2]
    · have h0 : (0 : Int) ≤ i := by omega
      have h2 : i.toNat < l.length := by omega
      refine ⟨l.get ⟨i.toNat, h2⟩, ?_⟩
      simp [resolve_model, pyIndex, hne', hneg, h0, hhi, List.get?_eq_get h2]
  · intro l i hne hout
    have hne' : l.isEmpty = false := by
      cases l
      · exact absurd rfl hne
      · rfl
    by_cases hneg : i < 0
    · have h3 : ¬ ((0 : Int) ≤ i + l.length) := by omega
      simp [resolve_model, pyIndex, hne', hneg, h3]
    · have h0 : (0 : Int) ≤ i := by omega
      have h4 : ¬ ((i : Int) < l.length) := by omega
      simp [resolve_model, pyIndex, hne', hneg, h0, h4]

/-- C5 witness: index -4 against the three models fails out-of-range. -/
theorem C5_model_index_resolution_witness :
    resolve_model (.inr (-4)) exModels = .error (.indexOutOfBounds (-4) 3) :=
  C5_model_index_resolution.2.2.2.2.2 exModels (-4) (by decide) (by decide)

/-- Cost comparison between registered providers. -/
def costLE (a b : String × PInfo) : Prop := a.2.cost ≤ b.2.cost

/-- Membership through `insertByCost`. -/
theorem mem_insertByCost (x y : String × PInfo) (l : Registry) :
    y ∈ insertByCost x l ↔ y = x ∨ y ∈ l := by
  induction l with
  | nil => simp [insertByCost]
  | cons z zs ih =>
    by_cases h : z.2.cost ≤ x.2.cost
    · simp only [insertByCost, if_pos h, List.mem_cons, ih]
      tauto
    · simp only [insertByCost, if_neg h, List.mem_cons]

/-- Membership through the sorting fold. -/
theorem mem_sortByCost_aux (reg : Registry) (acc : Registry) (y : String × PInfo) :
    y ∈ reg.foldl (fun acc x => insertByCost x acc) acc ↔ y ∈ reg ∨ y ∈ acc := by
  induction reg generalizing acc with
  | nil => simp
  | cons z zs ih =>
    simp only [List.foldl_cons, ih, mem_insertByCost, List.mem_cons]
    tauto

/-- `sortByCost` is a permutation as far as membership is concerned. -/
theorem mem_sortByCost (reg : Registry) (y : String × PInfo) :
    y ∈ sortByCost reg ↔ y ∈ reg := by
  simp [sortByCost, mem_sortByCost_aux]

/-- Inserting into a cost-sorted list keeps it cost-sorted. -/
theorem pairwise_insertByCost (x : String × PInfo) (l : Registry)
    (h : l.Pairwise costLE) : (insertByCost x l).Pairwise costLE := by
  induction l with
  | nil => simp [insertByCost, List.pairwise_cons]
  | cons z zs ih =>
    rcases List.pairwise_cons.mp h with ⟨hz, hzs⟩
    by_cases hc : z.2.cost ≤ x.2.cost
    · simp only [insertByCost, if_pos hc]
      refine List.pairwise_cons.mpr ⟨?_, ih hzs⟩
      intro y hy
      rcases (mem_insertByCost x y zs).mp hy with rfl | hy'
      · exact hc
      · exact hz y hy'
    · simp only [insertByCost, if_neg hc]
      refine List.pairwise_cons.mpr ⟨?_, h⟩
      intro y hy
      rcases List.mem_cons.mp hy with rfl | hy'
      · unfold costLE
        omega
      · have := hz y hy'
        unfold costLE at this ⊢
        omega

/-- The sorting fold yields a cost-sorted list. -/
theorem pairwise_sortByCost_aux (reg acc : Registry) (h : acc.Pairwise costLE) :
    (reg.foldl (fun acc x => insertByCost x acc) acc).Pairwise costLE := by
  induction reg generalizing acc with
  | nil => exact h
  | cons z zs ih => exact ih _ (pairwise_insertByCost z acc h)

/-- `sortByCost` sorts ascending by cost. -/
theorem pairwise_sortByCost (reg : Registry) : (sortByCost reg).Pairwise costLE :=
  pairwise_sortByCost_aux reg [] (by simp)

/-- The candidate loop, on a cost-sorted list, returns a provider that
instantiates and validates and than which every strictly cheaper candidate
fails. -/
theorem selectLoop_ok (l : Registry) (p : String × PInfo)
    (hsort : l.Pairwise costLE) (h : selectLoop l = .ok p) :
    p.2.instOk = true ∧ p.2.validates = true ∧ p ∈ l
    ∧ ∀ q ∈ l, q.2.cost < p.2.cost →
        ¬(q.2.instOk = true ∧ q.2.validates = true) := by
  induction l with
  | nil => simp [selectLoop] at h
  | cons z zs ih =>
    rcases List.pairwise_cons.mp hsort with ⟨hz, hzs⟩
    by_cases hp : (z.2.instOk && z.2.validates) = true
    · have hzp : z = p := by simpa [selectLoop, hp] using h
      subst hzp
      rcases Bool.and_eq_true_iff.mp hp with ⟨h1, h2⟩
      refine ⟨h1, h2, by simp, ?_⟩
      intro q hq hlt
      rcases List.mem_cons.mp hq with rfl | hq'
      · omega
      · have := hz q hq'
        unfold costLE at this
        omega
    · have h' : selectLoop zs = .ok p := by simpa [selectLoop, hp] using h
      obtain ⟨h1, h2, h3, h4⟩ := ih hzs h'
      refine ⟨h1, h2, by simp [h3], ?_⟩
      intro q hq hlt
      rcases List.mem_cons.mp hq with rfl | hq'
      · intro hcon
        exact hp (by simp [hcon.1, hcon.2])
      · exact h4 q hq' hlt

/-- C4: auto-selection sorts the registered providers ascending by cost
weight (stable, so registration order breaks ties), instantiates each in
order, and returns the first that validates: over costs A=90, B=20, C=55
with only B and C validating it returns B, over two equal-cost validating
providers it returns the first registered, and in general the selected
provider validates while every strictly cheaper registered candidate fails
to instantiate or validate. -/
theorem C4_auto_selection :
    select_best_provider exRegistry = .ok ("B", ⟨20, true, true⟩)
    ∧ select_best_provider tieRegistry = .ok ("X", ⟨7, true, true⟩)
    ∧ (∀ (reg : Registry) (p : String × PInfo), select_best_provider reg = .ok p →
        p.2.instOk = true ∧ p.2.validates = true ∧ p ∈ reg
        ∧ ∀ q ∈ reg, q.2.cost < p.2.cost →
            ¬(q.2.instOk = true ∧ q.2.validates = true)) := by
  refine ⟨rfl, rfl, ?_⟩
  intro reg p h
  obtain ⟨h1, h2, h3, h4⟩ := selectLoop_ok _ p (pairwise_sortByCost reg) h
  exact ⟨h1, h2, (mem_sortByCost reg p).mp h3,
    fun q hq hlt => h4 q ((mem_sortByCost reg q).mpr hq) hlt⟩

/-- C4 witness: applying the general part to the example registry shows the
selected provider B validates and is registered. -/
theorem C4_auto_selection_witness :
    (("B", ⟨20, true, true⟩) : String × PInfo) ∈ exRegistry :=
  (C4_auto_selection.2.2 exRegistry ("B", ⟨20, true, true⟩) rfl).2.2.1

/-- C8 counterexample: two registries with disjoint candidate sets failing
for different reasons (A: failed validation; B: failed validation, C:
constructor raised) produce the identical fixed error message, so the
message enumerates neither the candidates tried nor why each failed; the
message does not even contain the character naming candidate A. -/
theorem C8_counterexample :
    select_best_provider failRegistryA = .error noProviderMessage
    ∧ select_best_provider failRegistryBC = .error noProviderMessage
    ∧ noProviderMessage.toList.contains (Char.ofNat 65) = false :=
  ⟨rfl, rfl, by decide⟩

/-- C8 amended: when every registered provider fails to instantiate or
validate, auto-selection raises a ValueError with the fixed message
"No suitable LLM provider found and properly configured", independent of
which candidates were tried and why they failed. -/
theorem C8_no_provider_error_is_fixed_message (reg : Registry)
    (h : ∀ p ∈ reg, (p.2.instOk && p.2.validates) = false) :
    select_best_provider reg = .error noProviderMessage := by
  have main : ∀ l : Registry, (∀ p ∈ l, (p.2.instOk && p.2.validates) = false) →
      selectLoop l = .error noProviderMessage := by
    intro l
    induction l with
    | nil => intro _; rfl
    | cons z zs ih =>
      intro hl
      have hz : (z.2.instOk && z.2.validates) = false := hl z (by simp)
      simp only [selectLoop, hz, Bool.false_eq_true, if_false]
      exact ih fun p hp => hl p (by simp [hp])
  exact main _ fun p hp => h p ((mem_sortByCost reg p).mp hp)

/-- C8 amended witness: the single-candidate failing registry yields the
fixed message. -/
theorem C8_no_provider_error_is_fixed_message_witness :
    select_best_provider failRegistryA = .error noProviderMessage :=
  C8_no_provider_error_is_fixed_message failRegistryA (by decide)

/-- Key membership is lookup success. -/
theorem hasKey_iff_lookup (d : List (String × PVal)) (k : String) :
    hasKey d k = true ↔ ∃ v, lookupD d k = some v := by
  induction d with
  | nil => simp [hasKey, lookupD]
  | cons p ps ih =>
    by_cases hp : p.1 = k <;> simp [hasKey, lookupD, hp, ih]

/-- Assigning a key makes its lookup yield the assigned value. -/
theorem lookupD_dictSet_self (d : List (String × PVal)) (k : String) (v : PVal) :
    lookupD (dictSet d k v) k = some v := by
  induction d with
  | nil => simp [dictSet, lookupD]
  | cons p ps ih =>
    by_cases hp : p.1 = k <;> simp [dictSet, lookupD, hp, ih]

/-- Assigning a different key leaves a lookup unchanged. -/
theorem lookupD_dictSet_ne (d : List (String × PVal)) (k k' : String) (v : PVal)
    (h : k ≠ k') : lookupD (dictSet d k' v) k = lookupD d k := by
  induction d with
  | nil => simp [dictSet, lookupD, Ne.symm h]
  | cons p ps ih =>
    by_cases hp : p.1 = k'
    · simp [dictSet, lookupD, hp, Ne.symm h]
    · simp [dictSet, lookupD, hp, ih]

/-- Assigning a key preserves the presence of every key. -/
theorem hasKey_dictSet_mono (d : List (String × PVal)) (k j : String) (v : PVal)
    (h : hasKey d j = true) : hasKey (dictSet d k v) j = true := by
  by_cases hjk : j = k
  · subst hjk
    exact (hasKey_iff_lookup _ _).mpr ⟨v, lookupD_dictSet_self d j v⟩
  · rcases (hasKey_iff_lookup d j).mp h with ⟨w, hw⟩
    exact (hasKey_iff_lookup _ _).mpr ⟨w, by rw [lookupD_dictSet_ne d j k v hjk, hw]⟩

/-- The assigned key is present after assignment. -/
theorem hasKey_dictSet_self (d : List (String × PVal)) (k : String) (v : PVal) :
    hasKey (dictSet d k v) k = true :=
  (hasKey_iff_lookup _ _).mpr ⟨v, lookupD_dictSet_self d k v⟩

/-- Key membership coincides with membership among the mapped-out keys. -/
theorem hasKey_iff_mem_keys (d : List (String × PVal)) (k : String) :
    hasKey d k = true ↔ k ∈ d.map Prod.fst := by
  induction d with
  | nil => simp [hasKey]
  | cons p ps ih =>
    by_cases hp : p.1 = k
    · simp [hasKey, hp]
    · have hp' : ¬ k = p.1 := fun h => hp h.symm
      simp [hasKey, hp, hp', ih]

/-- A key absent from the override keeps its base lookup through
`merge_dicts`. -/
theorem merge_dicts_lookup_notin (override : List (String × PVal)) :
    ∀ base k, hasKey override k = false →
      lookupD (merge_dicts base override) k = lookupD base k := by
  induction override with
  | nil =>
    intro base k _
    rw [merge_dicts.eq_def]
  | cons p rest ih =>
    intro base k h
    obtain ⟨k', v'⟩ := p
    simp only [hasKey, Bool.or_eq_false_iff, decide_eq_false_iff_not] at h
    obtain ⟨hk, hrest⟩ := h
    rw [merge_dicts.eq_def]
    dsimp only
    split
    · rw [ih _ _ hrest, lookupD_dictSet_ne _ _ _ _ fun he => hk he.symm]
    · rw [ih _ _ hrest, lookupD_dictSet_ne _ _ _ _ fun he => hk he.symm]

/-- Every key of the base survives `merge_dicts`. -/
theorem merge_dicts_hasKey_left (override : List (String × PVal)) :
    ∀ base k, hasKey base k = true →
      hasKey (merge_dicts base override) k = true := by
  induction override with
  | nil =>
    intro base k h
    rw [merge_dicts.eq_def]
    exact h
  | cons p rest ih =>
    intro base k h
    obtain ⟨k', v'⟩ := p
    rw [merge_dicts.eq_def]
    dsimp only
    split
    · exact ih _ _ (hasKey_dictSet_mono _ _ _ _ h)
    · exact ih _ _ (hasKey_dictSet_mono _ _ _ _ h)

/-- Every key of the override ends up present after `merge_dicts`. -/
theorem merge_dicts_hasKey_right (override : List (String × PVal)) :
    ∀ base k, hasKey override k = true →
      hasKey (merge_dicts base override) k = true := by
  induction override with
  | nil =>
    intro base k h
    simp [hasKey] at h
  | cons p rest ih =>
    intro base k h
    obtain ⟨k', v'⟩ := p
    by_cases hk : hasKey rest k = true
    · rw [merge_dicts.eq_def]
      dsimp only
      split
      · exact ih _ _ hk
      · exact ih _ _ hk
    · have hk' : k' = k := by
        simp only [hasKey, Bool.or_eq_true_iff, decide_eq_true_eq] at h
        rcases h with h | h
        · exact h
        · exact absurd h hk
      subst hk'
      rw [merge_dicts.eq_def]
      dsimp only
      split
      · exact merge_dicts_hasKey_left rest _ _ (hasKey_dictSet_self _ _ _)
      · exact merge_dicts_hasKey_left rest _ _ (hasKey_dictSet_self _ _ _)

/-- When a key holds a dict in both containers, `merge_dicts` merges the two
sub-dicts recursively at that key (override keys assumed unique, as they are
for a Python dict). -/
theorem merge_dicts_lookup_both (override : List (String × PVal)) :
    ∀ base k bd od, (override.map Prod.fst).Nodup →
      lookupD base k = some (.dict bd) →
      lookupD override k = some (.dict od) →
      lookupD (merge_dicts base override) k = some (.dict (merge_dicts bd od)) := by
  induction override with
  | nil =>
    intro base k bd od _ _ ho
    simp [lookupD] at ho
  | cons p rest ih =>
    intro base k bd od hnd hb ho
    obtain ⟨k', v'⟩ := p
    have hnd0 : k' ∉ rest.map Prod.fst ∧ (rest.map Prod.fst).Nodup :=
      List.nodup_cons.mp hnd
    by_cases hk : k' = k
    · subst hk
      have hv : v' = .dict od := by
        have := ho
        simp only [lookupD, if_pos rfl] at this
        exact Option.some.inj this
      subst hv
      have hnotin : hasKey rest k' = false := by
        rcases h : hasKey rest k' with _ | _
        · rfl
        · exact absurd ((hasKey_iff_mem_keys rest k').mp h) hnd0.1
      rw [merge_dicts.eq_def]
      dsimp only
      rw [hb]
      rw [merge_dicts_lookup_notin rest _ _ hnotin, lookupD_dictSet_self]
    · have ho' : lookupD rest k = some (.dict od) := by
        simpa [lookupD, hk] using ho
      rw [merge_dicts.eq_def]
      dsimp only
      split
      · exact ih _ _ _ _ hnd0.2
          (by rw [lookupD_dictSet_ne _ _ _ _ fun he => hk he.symm]; exact hb) ho'
      · exact ih _ _ _ _ hnd0.2
          (by rw [lookupD_dictSet_ne _ _ _ _ fun he => hk he.symm]; exact hb) ho'

/-- A key absent from the override keeps its base lookup through the shallow
`dict.update`. -/
theorem pyDictUpdate_lookup_notin (override : List (String × PVal)) :
    ∀ base k, hasKey override k = false →
      lookupD (pyDictUpdate base override) k = lookupD base k := by
  induction override with
  | nil =>
    intro base k _
    rfl
  | cons p rest ih =>
    intro base k h
    obtain ⟨k', v'⟩ := p
    simp only [hasKey, Bool.or_eq_false_iff, decide_eq_false_iff_not] at h
    obtain ⟨hk, hrest⟩ := h
    show lookupD (pyDictUpdate (dictSet base k' v') rest) k = lookupD base k
    rw [ih _ _ hrest, lookupD_dictSet_ne _ _ _ _ fun he => hk he.symm]

/-- Every key of the base survives the shallow `dict.update`. -/
theorem pyDictUpdate_hasKey_left (override : List (String × PVal)) :
    ∀ base k, hasKey base k = true →
      hasKey (pyDictUpdate base override) k = true := by
  induction override with
  | nil =>
    intro base k h
    exact h
  | cons p rest ih =>
    intro base k h
    obtain ⟨k', v'⟩ := p
    exact ih _ _ (hasKey_dictSet_mono _ _ _ _ h)

/-- Every key of the override is present after the shallow `dict.update`. -/
theorem pyDictUpdate_hasKey_right (override : List (String × PVal)) :
    ∀ base k, hasKey override k = true →
      hasKey (pyDictUpdate base override) k = true := by
  induction override with
  | nil =>
    intro base k h
    simp [hasKey] at h
  | cons p rest ih =>
    intro base k h
    obtain ⟨k', v'⟩ := p
    by_cases hk : hasKey rest k = true
    · exact ih _ _ hk
    · have hk' : k' = k := by
        simp only [hasKey, Bool.or_eq_true_iff, decide_eq_true_eq] at h
        rcases h with h | h
        · exact h
        · exact absurd h hk
      subst hk'
      exact pyDictUpdate_hasKey_left rest _ _ (hasKey_dictSet_self _ _ _)

/-- A key of the override (keys unique) takes the override's value through
the shallow `dict.update` — whole-value replacement. -/
theorem pyDictUpdate_lookup_right (override : List (String × PVal)) :
    ∀ base k v, (override.map Prod.fst).Nodup →
      lookupD override k = some v →
      lookupD (pyDictUpdate base override) k = some v := by
  induction override with
  | nil =>
    intro base k v _ ho
    simp [lookupD] at ho
  | cons p rest ih =>
    intro base k v hnd ho
    obtain ⟨k', v'⟩ := p
    have hnd0 : k' ∉ rest.map Prod.fst ∧ (rest.map Prod.fst).Nodup :=
      List.nodup_cons.mp hnd
    by_cases hk : k' = k
    · subst hk
      have hv : v' = v := by
        have := ho
        simp only [lookupD, if_pos rfl] at this
        exact Option.some.inj this
      subst hv
      have hnotin : hasKey rest k' = false := by
        rcases h : hasKey rest k' with _ | _
        · rfl
        · exact absurd ((hasKey_iff_mem_keys rest k').mp h) hnd0.1
      show lookupD (pyDictUpdate (dictSet base k' v') rest) k' = some v'
      rw [pyDictUpdate_lookup_notin rest _ _ hnotin, lookupD_dictSet_self]
    · have ho' : lookupD rest k = some v := by
        simpa [lookupD, hk] using ho
      exact ih _ _ _ hnd0.2 ho'

/-- C3 counterexample: "update" is not a recognised output action — the
validator rejects it (the valid actions are overwrite, skip, merge), and
even fed directly to the output step it falls through to the overwrite
branch, writing the new content verbatim with no merge at all. -/
theorem C3_counterexample :
    validate_output_action "update" = false
    ∧ convertOutputStep exCodec "out.json" true "existing.json" "new.json" "update"
        = .wrote "new.json" :=
  ⟨rfl, rfl⟩

/-- C3 amended: the CLI has no Update action; its only merging action is the
shallow "merge".  The recursive merge the spec describes is implemented by
the (uncalled) utility `merge_dicts`, which does satisfy the claimed
behaviour: on the spec's example it yields the recursive result keeping
nested x, base keys always survive, a key holding dicts on both sides gets
the recursively merged sub-dict (new sub-keys winning), and nested keys
present only in the existing sub-dict are never dropped. -/
theorem C3_merge_dicts_is_recursive :
    merge_dicts exBase exNew = exMergedRecursive
    ∧ (∀ (base override : List (String × PVal)) (k : String),
        hasKey base k = true → hasKey (merge_dicts base override) k = true)
    ∧ (∀ (base override : List (String × PVal)) (k : String)
        (bd od : List (String × PVal)),
        (override.map Prod.fst).Nodup →
        lookupD base k = some (.dict bd) →
        lookupD override k = some (.dict od) →
        lookupD (merge_dicts base override) k = some (.dict (merge_dicts bd od)))
    ∧ (∀ (base override : List (String × PVal)) (k : String)
        (bd od : List (String × PVal)) (j : String),
        (override.map Prod.fst).Nodup →
        lookupD base k = some (.dict bd) →
        lookupD override k = some (.dict od) →
        hasKey bd j = true →
        ∃ sub, lookupD (merge_dicts base override) k = some (.dict sub)
          ∧ hasKey sub j = true) := by
  refine ⟨?_, fun base override k h => merge_dicts_hasKey_left override base k h,
    fun base override k bd od h1 h2 h3 =>
      merge_dicts_lookup_both override base k bd od h1 h2 h3, ?_⟩
  · simp [merge_dicts, exBase, exNew, exMergedRecursive, dictSet, lookupD]
  · intro base override k bd od j h1 h2 h3 hj
    exact ⟨merge_dicts bd od, merge_dicts_lookup_both override base k bd od h1 h2 h3,
      merge_dicts_hasKey_left od bd j hj⟩

/-- C3 amended witness: on the spec example the sub-dicts at key a are
merged recursively. -/
theorem C3_merge_dicts_is_recursive_witness :
    lookupD (merge_dicts exBase exNew) "a"
      = some (.dict (merge_dicts [("x", .int 1), ("y", .int 2)]
          [("y", .int 9), ("z", .int 3)])) :=
  C3_merge_dicts_is_recursive.2.2.1 exBase exNew "a"
    [("x", .int 1), ("y", .int 2)] [("y", .int 9), ("z", .int 3)]
    (by decide) rfl rfl

/-- C7 counterexample: "replace" is not a recognised output action — the
validator rejects it, and fed directly to the output step it falls through
to the overwrite branch, so no format detection, parsing or merging
happens for an action of that name. -/
theorem C7_counterexample :
    validate_output_action "replace" = false
    ∧ convertOutputStep exCodec "out.json" true "existing.json" "new.json" "replace"
        = .wrote "new.json" :=
  ⟨rfl, rfl⟩

/-- C7 amended: the code's only merging action is "merge": it parses the
existing file and the new content as JSON (no format detection of the
existing file), shallow-merges at depth 1 via `dict.update` — new top-level
keys overwrite, existing-only keys are preserved, new-only keys are added —
and writes the merged container back as JSON (not in any detected format
of the existing file).  On the spec's example the merged container is
a mapped to the new sub-dict, b=5, c=7. -/
theorem C7_merge_is_shallow_json_update :
    pyDictUpdate exBase exNew = exMergedShallow
    ∧ (∀ (J : JsonCodec) (path et nt : String),
        J.loads et = some (.dict exBase) → J.loads nt = some (.dict exNew) →
        convertOutputStep J path true et nt "merge"
          = .wrote (J.dumps (.dict exMergedShallow)))
    ∧ (∀ (e n : List (String × PVal)) (k : String),
        hasKey e k = true → hasKey (pyDictUpdate e n) k = true)
    ∧ (∀ (e n : List (String × PVal)) (k : String),
        hasKey n k = true → hasKey (pyDictUpdate e n) k = true)
    ∧ (∀ (e n : List (String × PVal)) (k : String),
        hasKey n k = false → lookupD (pyDictUpdate e n) k = lookupD e k)
    ∧ (∀ (e n : List (String × PVal)) (k : String) (v : PVal),
        (n.map Prod.fst).Nodup → lookupD n k = some v →
        lookupD (pyDictUpdate e n) k = some v) := by
  refine ⟨rfl, ?_,
    fun e n k h => pyDictUpdate_hasKey_left n e k h,
    fun e n k h => pyDictUpdate_hasKey_right n e k h,
    fun e n k h => pyDictUpdate_lookup_notin n e k h,
    fun e n k v h1 h2 => pyDictUpdate_lookup_right n e k v h1 h2⟩
  intro J path et nt h1 h2
  simp [convertOutputStep, h1, h2]
  rfl

/-- C7 amended witness: with the example codec, the merge action writes the
JSON dump of the shallow-merged container. -/
theorem C7_merge_is_shallow_json_update_witness :
    convertOutputStep exCodec "out.json" true "existing.json" "new.json" "merge"
      = .wrote (exCodec.dumps (.dict exMergedShallow)) :=
  C7_merge_is_shallow_json_update.2.1 exCodec "out.json" "existing.json" "new.json" rfl rfl

/-- Writing a key into the object at one address leaves every other address
unchanged. -/
theorem storeWrite_get_ne (store : Store) (a : Nat) (k : String) (v : HVal)
    (b : Nat) (h : b ≠ a) : (storeWrite store a k v).get? b = store.get? b := by
  unfold storeWrite
  cases hd : store.get? a
  · rfl
  · exact List.get?_set_ne _ _ (fun he => h he.symm)

/-- Writing a key into an object keeps the heap size. -/
theorem storeWrite_length (store : Store) (a : Nat) (k : String) (v : HVal) :
    (storeWrite store a k v).length = store.length := by
  unfold storeWrite
  cases hd : store.get? a
  · rfl
  · exact List.length_set store _ _

/-- The update loop of the heap merge only grows the heap and only writes
to the result address or to fresh addresses: every pre-existing address
other than the result is untouched. -/
theorem mergeUpd_preserve (fuel : Nat)
    (HA : ∀ (store : Store) (baseA overA : Nat) (st : Store) (res : Nat),
      mergeDictsH fuel store baseA overA = some (st, res) →
      res = store.length ∧ store.length < st.length
        ∧ ∀ a, a < store.length → st.get? a = store.get? a) :
    ∀ (entries : HDict) (store : Store) (resA : Nat) (st : Store),
      mergeUpd fuel store resA entries = some st →
      store.length ≤ st.length
        ∧ ∀ a, a < store.length → a ≠ resA → st.get? a = store.get? a := by
  intro entries
  induction entries with
  | nil =>
    intro store resA st h
    rw [mergeUpd.eq_def] at h
    dsimp only at h
    cases h
    exact ⟨Nat.le_refl _, fun a _ _ => rfl⟩
  | cons p rest ih =>
    intro store resA st h
    obtain ⟨k, v⟩ := p
    rw [mergeUpd.eq_def] at h
    dsimp only at h
    split at h
    · rename_i a b heq1 heq2
      split at h
      · rename_i st1 mA heq3
        obtain ⟨hr1, hr2⟩ := ih _ _ _ h
        obtain ⟨_, hlt, hpres⟩ := HA _ _ _ _ _ heq3
        rw [storeWrite_length] at hr1
        refine ⟨by omega, ?_⟩
        intro a ha hne
        rw [hr2 a (by rw [storeWrite_length]; omega) hne,
          storeWrite_get_ne _ _ _ _ _ hne, hpres a ha]
      · exact absurd h (by simp)
    · obtain ⟨hr1, hr2⟩ := ih _ _ _ h
      rw [storeWrite_length] at hr1
      refine ⟨hr1, ?_⟩
      intro a ha hne
      rw [hr2 a (by rw [storeWrite_length]; exact ha) hne,
        storeWrite_get_ne _ _ _ _ _ hne]

/-- The heap merge allocates its result at the old end of the heap, grows
the heap, and leaves every pre-existing object unchanged. -/
theorem mergeDictsH_preserve : ∀ (fuel : Nat) (store : Store) (baseA overA : Nat)
    (st : Store) (res : Nat),
    mergeDictsH fuel store baseA overA = some (st, res) →
    res = store.length ∧ store.length < st.length
      ∧ ∀ a, a < store.length → st.get? a = store.get? a := by
  intro fuel
  induction fuel with
  | zero =>
    intro store baseA overA st res h
    rw [mergeDictsH.eq_def] at h
    exact absurd h (by simp)
  | succ fuel ih =>
    intro store baseA overA st res h
    rw [mergeDictsH.eq_def] at h
    dsimp only at h
    split at h
    · rename_i baseD overD heqb heqo
      split at h
      · rename_i st1 heqm
        cases h
        obtain ⟨hlen, hpres⟩ := mergeUpd_preserve fuel ih overD _ _ _ heqm
        rw [List.length_append, List.length_singleton] at hlen
        refine ⟨rfl, by omega, ?_⟩
        intro a ha
        have ha1 : a < (store ++ [baseD]).length := by
          rw [List.length_append, List.length_singleton]
          omega
        have hne : a ≠ store.length := by omega
        rw [hpres a ha1 hne, List.get?_append ha]
      · exact absurd h (by simp)
    · exact absurd h (by simp)

/-- C10 (implicit): the heap-level `merge_dicts` never mutates either
argument — every object present before the call, in particular the base
dict, the override dict and every dict nested inside them, is unchanged on
the heap afterwards — and the returned dict is a freshly allocated object,
distinct from the base (it is `base.copy()` plus updates, not `base`
itself) and from the override. -/
theorem C10_merge_dicts_no_mutation (fuel : Nat) (store : Store)
    (baseA overA : Nat) (st : Store) (res : Nat)
    (h : mergeDictsH fuel store baseA overA = some (st, res)) :
    (∀ a, a < store.length → st.get? a = store.get? a)
    ∧ res = store.length
    ∧ baseA < store.length ∧ overA < store.length
    ∧ res ≠ baseA ∧ res ≠ overA := by
  have hb : baseA < store.length ∧ overA < store.length := by
    cases fuel with
    | zero =>
      rw [mergeDictsH.eq_def] at h
      exact absurd h (by simp)
    | succ fuel =>
      rw [mergeDictsH.eq_def] at h
      dsimp only at h
      split at h
      · rename_i baseD overD heqb heqo
        constructor
        · rcases List.get?_eq_some.mp heqb with ⟨hl, _⟩
          exact hl
        · rcases List.get?_eq_some.mp heqo with ⟨hl, _⟩
          exact hl
      · exact absurd h (by simp)
  obtain ⟨hres, _, hpres⟩ := mergeDictsH_preserve fuel store baseA overA st res h
  exact ⟨hpres, hres, hb.1, hb.2, by omega, by omega⟩

/-- C10 witness: on the concrete two-level heap, after the merge the base
dict (address 0) and the override dict (address 2) are unchanged, and the
result address 4 is the old heap end. -/
theorem C10_merge_dicts_no_mutation_witness :
    mutStoreFinal.get? 0 = mutStore0.get? 0
    ∧ mutStoreFinal.get? 2 = mutStore0.get? 2
    ∧ (4 : Nat) = mutStore0.length := by
  have h : mergeDictsH 10 mutStore0 0 2 = some (mutStoreFinal, 4) := by
    simp [mergeDictsH, mergeUpd, mutStore0, mutStoreFinal, dictSetH, lookupH,
      storeWrite, List.get?]
  have c := C10_merge_dicts_no_mutation 10 mutStore0 0 2 mutStoreFinal 4 h
  exact ⟨c.1 0 (by decide), c.1 2 (by decide), c.2.1⟩

end MCPConv
